import Mathlib

/-!
Verification of the spotify-audio-previews pipeline.

This file embeds the identifier-resolution and preview-extraction pipeline of
the repository (src/utils/parser.utils.ts and src/index.ts) as pure Lean
functions, and proves the specified properties about them.

Modelling conventions:
* JS strings are Lean `String`s (lists of characters via `.data`).
* `String.prototype.includes` is `containsSub` (substring search).
* The two regexes of parser.utils.ts and the extraction regex of index.ts are
  embedded as deterministic matchers.  Each regex is of a shape where greedy
  matching with backtracking coincides with maximal munch:
  - in `/\/track\/([a-zA-Z0-9]+)(?:\?|$)/` the capture `[a-zA-Z0-9]+` must be
    followed by `?` or end of input, and shrinking the greedy run only exposes
    another alphanumeric character, so the run is exactly the maximal
    alphanumeric run after `/track/`;
  - in `/"audioPreview":\s*\{\s*"url":\s*"([^"]+)"\s*\}/` every `\s*` is
    followed by a non-whitespace literal and `[^"]+` is followed by `"`,
    so every repetition is exactly a maximal munch.
  A `match` call returns the leftmost match, embedded as a scan over all start
  positions from the left.
* A `fetch` transport is a parameter `String → Except String HttpResponse`:
  `.error msg` models fetch (or body read) throwing a non-typed exception with
  message `msg`.  `getPreview` additionally returns the list of URLs it fetched
  so that "the transport is never invoked" is a statement about the result.
* Throwing typed errors is modelled with `Except SpotifyError`.  The
  `try/catch` blocks of `getPreview` re-throw `SpotifyPreviewError` instances
  unchanged, and every error the resolver and the fetch phase can raise is such
  an instance, so propagation is the identity on them; the transport `.error`
  case is the one reachable non-typed exception and is wrapped as
  `SpotifyApiError` with no status code, exactly as the catch block does.
-/

namespace SpotifyPreviews

/-- `[a-zA-Z0-9]` character class of the source regexes. -/
def isAlnumC (c : Char) : Bool :=
  ('a' ≤ c && c ≤ 'z') || ('A' ≤ c && c ≤ 'Z') || ('0' ≤ c && c ≤ '9')

/-- The JS `\s` character class (whitespace recognised by the extraction
regex's `\s*` pieces). -/
def isJsSpace (c : Char) : Bool :=
  c = ' ' || c = '\t' || c = '\n' || c = '\x0b' || c = '\x0c' || c = '\r' ||
  c = '\u00a0' || c = '\u1680' || ('\u2000' ≤ c && c ≤ '\u200a') ||
  c = '\u2028' || c = '\u2029' || c = '\u202f' || c = '\u205f' ||
  c = '\u3000' || c = '\ufeff'

/-- `n` is an initial segment of `h` (helper for substring search). -/
def isInitSeg : List Char → List Char → Bool
  | [], _ => true
  | _ :: _, [] => false
  | a :: as, b :: bs => a = b && isInitSeg as bs

/-- Embedding of `String.prototype.includes`: does `needle` occur as a
contiguous substring of the haystack? -/
def containsSub (needle : List Char) : List Char → Bool
  | [] => isInitSeg needle []
  | l@(_ :: t) => isInitSeg needle l || containsSub needle t

/-- The literal `"spotify.com"` tested by `url.includes("spotify.com")`. -/
def spotifyLit : List Char := "spotify.com".data

/-- The literal `"/track/"` tested by `url.includes("/track/")` and matched
by the extraction regex. -/
def trackLit : List Char := "/track/".data

/-- The literal `"https://"` tested by `url.includes("https://")`. -/
def httpsLit : List Char := "https://".data

/-- The literal `"audioPreview":` piece of the extraction regex of index.ts. -/
def audioPreviewLit : List Char := "\"audioPreview\":".data

/-- The literal `"url":` piece of the extraction regex of index.ts. -/
def urlKeyLit : List Char := "\"url\":".data

/-- The fixed request-URL base of index.ts:
`https://open.spotify.com/embed/track/`. -/
def embedBase : String := "https://open.spotify.com/embed/track/"

/-- The closed error taxonomy of src/errors.ts: each constructor is one
subclass of `SpotifyPreviewError`, carrying its contextual payload. -/
inductive SpotifyError where
  /-- `InvalidTrackIdError`, carrying the offending track id. -/
  | invalidTrackId (trackId : String)
  /-- `InvalidSpotifyUrlError`, carrying the offending url. -/
  | invalidSpotifyUrl (url : String)
  /-- `NoPreviewAvailableError`, carrying the resolved track id. -/
  | noPreviewAvailable (trackId : String)
  /-- `SpotifyApiError`, carrying a message and an optional HTTP status. -/
  | apiError (message : String) (statusCode : Option Nat)
  deriving DecidableEq, Repr

/-- Strip the literal `p` from the front of `l`, returning the remainder. -/
def stripLit? : List Char → List Char → Option (List Char)
  | [], l => some l
  | _ :: _, [] => none
  | a :: as, b :: bs => if a = b then stripLit? as bs else none

/-- One attempt of `/\/track\/([a-zA-Z0-9]+)(?:\?|$)/` at the current
position: `/track/`, then the (maximal, non-empty) alphanumeric run, then
`?` or end of input; returns the captured run. -/
def matchTrackAt (l : List Char) : Option (List Char) :=
  match stripLit? trackLit l with
  | none => none
  | some rest =>
    if (rest.takeWhile isAlnumC).isEmpty then none
    else
      match rest.dropWhile isAlnumC with
      | [] => some (rest.takeWhile isAlnumC)
      | c :: _ => if c = '?' then some (rest.takeWhile isAlnumC) else none

/-- `url.match(/\/track\/([a-zA-Z0-9]+)(?:\?|$)/)`: leftmost match, scanning
start positions from the left; returns the capture group. -/
def findTrackMatch : List Char → Option (List Char)
  | [] => none
  | l@(_ :: t) =>
    match matchTrackAt l with
    | some cap => some cap
    | none => findTrackMatch t

/-- `extractTrackIdFromUrl` of src/utils/parser.utils.ts. -/
def extractTrackIdFromUrl (url : String) : Except SpotifyError String :=
  if !containsSub spotifyLit url.data || !containsSub trackLit url.data then
    .error (.invalidSpotifyUrl url)
  else
    match findTrackMatch url.data with
    | none => .error (.invalidSpotifyUrl url)
    | some cap =>
      -- the JS guard `!match[1]` also rejects an empty capture group
      if cap.isEmpty then .error (.invalidSpotifyUrl url)
      else .ok (String.mk cap)

/-- `validateSpotifyTrackId` of src/utils/parser.utils.ts: the regex test
`^[a-zA-Z0-9]{22}$` (anchored at both ends: exactly 22 alphanumeric
characters), then `return true` or throw `InvalidTrackIdError`. -/
def validateSpotifyTrackId (trackId : String) : Except SpotifyError Bool :=
  if trackId.data.length == 22 && trackId.data.all isAlnumC then .ok true
  else .error (.invalidTrackId trackId)

/-- An HTTP response as seen by index.ts: a status and a text body. -/
structure HttpResponse where
  status : Nat
  body : String
  deriving DecidableEq, Repr

/-- `Response.ok`: HTTP status in `[200, 300)`. -/
def HttpResponse.ok (r : HttpResponse) : Bool :=
  200 ≤ r.status && r.status < 300

/-- Strip one expected character (helper for the extraction matcher). -/
def stripChar? (c : Char) : List Char → Option (List Char)
  | [] => none
  | b :: bs => if b = c then some bs else none

/-- One attempt of `/"audioPreview":\s*\{\s*"url":\s*"([^"]+)"\s*\}/` at the
current position; returns the captured (maximal, non-empty) run of
non-quote characters. -/
def matchAudioPreviewAt (l : List Char) : Option (List Char) :=
  match stripLit? audioPreviewLit l with
  | none => none
  | some r1 =>
    match stripChar? '\x7b' (r1.dropWhile isJsSpace) with
    | none => none
    | some r2 =>
      match stripLit? urlKeyLit (r2.dropWhile isJsSpace) with
      | none => none
      | some r3 =>
        match stripChar? '\"' (r3.dropWhile isJsSpace) with
        | none => none
        | some r4 =>
          if (r4.takeWhile (fun c => c ≠ '\"')).isEmpty then none
          else
            match r4.dropWhile (fun c => c ≠ '\"') with
            | [] => none
            | _ :: r5 =>
              match stripChar? '\x7d' (r5.dropWhile isJsSpace) with
              | none => none
              | some _ => some (r4.takeWhile (fun c => c ≠ '\"'))

/-- `html.match(/"audioPreview":\s*\{\s*"url":\s*"([^"]+)"\s*\}/)`: leftmost
match, scanning start positions from the left; returns the capture group. -/
def findAudioPreview : List Char → Option (List Char)
  | [] => none
  | l@(_ :: t) =>
    match matchAudioPreviewAt l with
    | some cap => some cap
    | none => findAudioPreview t

/-- The identifier-resolution phase of `getPreview` (the first `try` block of
index.ts): URL inputs go through `extractTrackIdFromUrl`, everything else
through `validateSpotifyTrackId`; typed errors are re-thrown unchanged by the
catch block. -/
def resolveTrack (track : String) : Except SpotifyError String :=
  if containsSub spotifyLit track.data then
    extractTrackIdFromUrl track
  else
    match validateSpotifyTrackId track with
    | .ok _ => .ok track
    | .error e => .error e

/-- `getPreview` of src/index.ts, over an explicit fetch transport.
Returns the outcome together with the list of URLs passed to the transport. -/
def getPreview (transport : String → Except String HttpResponse)
    (track : String) (throws : Bool) :
    Except SpotifyError (Option String) × List String :=
  match resolveTrack track with
  | .error e => (.error e, [])
  | .ok trackId =>
    let reqUrl := embedBase ++ trackId
    match transport reqUrl with
    | .error msg =>
      -- catch block: a non-`SpotifyPreviewError` exception is wrapped
      (.error (.apiError ("Failed to retrieve preview: " ++ msg) none), [reqUrl])
    | .ok response =>
      if !response.ok then
        (.error (.apiError "Failed to fetch track preview data"
          (some response.status)), [reqUrl])
      else
        let url : Option String :=
          (findAudioPreview response.body.data).map String.mk
        match url with
        | none =>
          (if throws then .error (.noPreviewAvailable trackId) else .ok none,
           [reqUrl])
        | some u =>
          -- `if (!url || !url.includes("https://"))`
          if u == "" || !containsSub httpsLit u.data then
            (if throws then .error (.noPreviewAvailable trackId) else .ok none,
             [reqUrl])
          else
            (.ok (some u), [reqUrl])

/-! ### Basic helper lemmas -/

theorem string_data_append (s t : String) : (s ++ t).data = s.data ++ t.data := by
  cases s; cases t; rfl

theorem string_mk_data (s : String) : String.mk s.data = s := rfl

theorem string_mk_ne_empty {l : List Char} (h : l ≠ []) : String.mk l ≠ "" := by
  intro hc
  exact h (congrArg String.data hc)

theorem isInitSeg_iff (n h : List Char) : isInitSeg n h = true ↔ ∃ t, h = n ++ t := by
  induction n generalizing h with
  | nil => simp [isInitSeg]
  | cons a as ih =>
    cases h with
    | nil =>
      simp [isInitSeg]
    | cons b bs =>
      simp only [isInitSeg, Bool.and_eq_true, decide_eq_true_eq, ih bs]
      constructor
      · rintro ⟨rfl, t, rfl⟩
        exact ⟨t, rfl⟩
      · rintro ⟨t, ht⟩
        injection ht with h1 h2
        exact ⟨h1.symm, t, h2⟩

theorem containsSub_iff (n h : List Char) :
    containsSub n h = true ↔ ∃ pre post, h = pre ++ n ++ post := by
  induction h with
  | nil =>
    simp only [containsSub, isInitSeg_iff]
    constructor
    · rintro ⟨t, ht⟩
      exact ⟨[], t, ht⟩
    · rintro ⟨pre, post, hh⟩
      cases pre with
      | nil => exact ⟨post, by simpa using hh⟩
      | cons a as => simp at hh
  | cons b bs ih =>
    simp only [containsSub, Bool.or_eq_true, isInitSeg_iff, ih]
    constructor
    · rintro (⟨t, ht⟩ | ⟨pre, post, hh⟩)
      · exact ⟨[], t, by simpa using ht⟩
      · exact ⟨b :: pre, post, by simp [hh]⟩
    · rintro ⟨pre, post, hh⟩
      cases pre with
      | nil => exact Or.inl ⟨post, by simpa using hh⟩
      | cons a as =>
        injection hh with h1 h2
        exact Or.inr ⟨as, post, h2⟩

theorem containsSub_append_left (n h t : List Char) (hc : containsSub n h = true) :
    containsSub n (h ++ t) = true := by
  rcases (containsSub_iff n h).mp hc with ⟨pre, post, rfl⟩
  exact (containsSub_iff n _).mpr ⟨pre, post ++ t, by simp⟩

theorem stripLit?_eq_some (p l r : List Char) : stripLit? p l = some r ↔ l = p ++ r := by
  induction p generalizing l with
  | nil => simp [stripLit?]
  | cons a as ih =>
    cases l with
    | nil => simp [stripLit?]
    | cons b bs =>
      simp only [stripLit?]
      by_cases hab : a = b
      · subst hab
        simp [ih bs]
      · rw [if_neg hab]
        simp only [List.cons_append]
        constructor
        · intro hc; cases hc
        · intro hc
          injection hc with h1 _
          exact absurd h1.symm hab

theorem stripChar?_eq_some (c : Char) (l r : List Char) :
    stripChar? c l = some r ↔ l = c :: r := by
  cases l with
  | nil => simp [stripChar?]
  | cons b bs =>
    simp only [stripChar?]
    by_cases hbc : b = c
    · subst hbc
      simp
    · rw [if_neg hbc]
      constructor
      · intro hc; cases hc
      · intro hc
        injection hc with h1 _
        exact absurd h1 hbc

theorem takeWhile_all_append (p : Char → Bool) (xs ys : List Char) (y : Char)
    (hxs : ∀ c ∈ xs, p c = true) (hy : p y = false) :
    (xs ++ y :: ys).takeWhile p = xs := by
  induction xs with
  | nil => simp [List.takeWhile, hy]
  | cons a as ih =>
    have ha : p a = true := hxs a (List.mem_cons_self a as)
    simp only [List.cons_append, List.takeWhile_cons, ha, if_true]
    rw [ih (fun c hc => hxs c (List.mem_cons_of_mem a hc))]

theorem dropWhile_all_append (p : Char → Bool) (xs ys : List Char) (y : Char)
    (hxs : ∀ c ∈ xs, p c = true) (hy : p y = false) :
    (xs ++ y :: ys).dropWhile p = y :: ys := by
  induction xs with
  | nil => simp [List.dropWhile, hy]
  | cons a as ih =>
    have ha : p a = true := hxs a (List.mem_cons_self a as)
    simp only [List.cons_append, List.dropWhile_cons, ha, if_true]
    exact ih (fun c hc => hxs c (List.mem_cons_of_mem a hc))

theorem mem_takeWhile {p : Char → Bool} {l : List Char} {a : Char}
    (h : a ∈ l.takeWhile p) : p a = true := by
  induction l with
  | nil => simp [List.takeWhile] at h
  | cons b bs ih =>
    rw [List.takeWhile_cons] at h
    by_cases hb : p b = true
    · rw [if_pos hb] at h
      rcases List.mem_cons.mp h with rfl | h2
      · exact hb
      · exact ih h2
    · rw [if_neg hb] at h
      simp at h

theorem isEmpty_eq_false_of_ne {l : List Char} (h : l ≠ []) : l.isEmpty = false := by
  cases l with
  | nil => exact absurd rfl h
  | cons a t => rfl

/-! ### Lemmas about the `/track/` extraction regex -/

theorem matchTrackAt_some_decomp {l cap : List Char} (h : matchTrackAt l = some cap) :
    ∃ rest, l = trackLit ++ rest ∧ cap = rest.takeWhile isAlnumC ∧ cap ≠ [] ∧
      (rest.dropWhile isAlnumC = [] ∨ ∃ tl, rest.dropWhile isAlnumC = '?' :: tl) := by
  unfold matchTrackAt at h
  split at h
  · cases h
  · rename_i rest hs
    split at h
    · cases h
    · rename_i he
      have hne : rest.takeWhile isAlnumC ≠ [] := by
        intro hc
        exact he (by simp [hc])
      refine ⟨rest, (stripLit?_eq_some _ _ _).mp hs, ?_⟩
      split at h
      · rename_i hd
        injection h with h'
        exact ⟨h'.symm, h' ▸ hne, Or.inl hd⟩
      · rename_i c tl hd
        split at h
        · rename_i hc
          injection h with h'
          exact ⟨h'.symm, h' ▸ hne, Or.inr ⟨tl, hc ▸ hd⟩⟩
        · cases h

theorem matchTrackAt_pos (id tl : List Char) (hne : id ≠ [])
    (hal : ∀ c ∈ id, isAlnumC c = true) :
    matchTrackAt (trackLit ++ (id ++ '?' :: tl)) = some id := by
  unfold matchTrackAt
  rw [(stripLit?_eq_some trackLit _ _).mpr rfl]
  simp only [takeWhile_all_append isAlnumC id tl '?' hal (by decide),
    dropWhile_all_append isAlnumC id tl '?' hal (by decide),
    isEmpty_eq_false_of_ne hne]
  simp

theorem findTrackMatch_some_decomp {l cap : List Char} (h : findTrackMatch l = some cap) :
    ∃ pre post, l = pre ++ trackLit ++ cap ++ post ∧ cap ≠ [] ∧
      (∀ c ∈ cap, isAlnumC c = true) ∧ (post = [] ∨ ∃ tl, post = '?' :: tl) := by
  induction l with
  | nil => cases h
  | cons a t ih =>
    rw [show findTrackMatch (a :: t) =
        (match matchTrackAt (a :: t) with
         | some cap => some cap
         | none => findTrackMatch t) from rfl] at h
    cases hm : matchTrackAt (a :: t) with
    | some cap' =>
      rw [hm] at h
      injection h with h'
      subst h'
      rcases matchTrackAt_some_decomp hm with ⟨rest, hl, hcap, hne, hpost⟩
      refine ⟨[], rest.dropWhile isAlnumC, ?_, hne, ?_, hpost⟩
      · rw [List.nil_append, hl, hcap]
        rw [List.append_assoc]
        congr 1
        exact (List.takeWhile_append_dropWhile _ _).symm
      · intro c hc
        rw [hcap] at hc
        exact mem_takeWhile hc
    | none =>
      rw [hm] at h
      simp only at h
      rcases ih h with ⟨pre, post, hl, hne, hal, hpost⟩
      exact ⟨a :: pre, post, by simp [hl], hne, hal, hpost⟩

theorem findTrackMatch_cons_some {a : Char} {t cap : List Char}
    (h : matchTrackAt (a :: t) = some cap) : findTrackMatch (a :: t) = some cap := by
  rw [show findTrackMatch (a :: t) =
      (match matchTrackAt (a :: t) with
       | some cap => some cap
       | none => findTrackMatch t) from rfl, h]

theorem findTrackMatch_skip_https (tail : List Char) :
    findTrackMatch ("https://open.spotify.com".data ++ tail) = findTrackMatch tail := by
  simp [findTrackMatch, matchTrackAt, stripLit?, trackLit]

theorem findTrackMatch_pos_url (id tl : List Char) (hne : id ≠ [])
    (hal : ∀ c ∈ id, isAlnumC c = true) :
    findTrackMatch ("https://open.spotify.com".data ++ (trackLit ++ (id ++ '?' :: tl))) =
      some id := by
  rw [findTrackMatch_skip_https]
  exact findTrackMatch_cons_some (matchTrackAt_pos id tl hne hal)

/-- The alphanumeric character class, written out as a proposition. -/
theorem isAlnumC_iff (c : Char) : isAlnumC c = true ↔
    ('a' ≤ c ∧ c ≤ 'z') ∨ ('A' ≤ c ∧ c ≤ 'Z') ∨ ('0' ≤ c ∧ c ≤ '9') := by
  simp [isAlnumC, or_assoc]

theorem string_data_eq_nil {s : String} (h : s.data = []) : s = "" := by
  cases s with
  | mk d => exact congrArg String.mk h

/-! ### Claims about the identifier parser -/

/-- C1: for every string of exactly 22 characters drawn from `[a-zA-Z0-9]`,
`validateSpotifyTrackId` returns the literal value `true`; for every other
string (wrong length, or containing any character outside that alphabet) it
throws `InvalidTrackIdError`; it never returns `false`. -/
theorem claim_C1 (s : String) :
    (validateSpotifyTrackId s = .ok true ↔
      (s.data.length = 22 ∧ ∀ c ∈ s.data,
        ('a' ≤ c ∧ c ≤ 'z') ∨ ('A' ≤ c ∧ c ≤ 'Z') ∨ ('0' ≤ c ∧ c ≤ '9')))
    ∧ (¬(s.data.length = 22 ∧ ∀ c ∈ s.data,
        ('a' ≤ c ∧ c ≤ 'z') ∨ ('A' ≤ c ∧ c ≤ 'Z') ∨ ('0' ≤ c ∧ c ≤ '9')) →
        validateSpotifyTrackId s = .error (.invalidTrackId s))
    ∧ (∀ b : Bool, validateSpotifyTrackId s = .ok b → b = true) := by
  have hiff : (s.data.length == 22 && s.data.all isAlnumC) = true ↔
      (s.data.length = 22 ∧ ∀ c ∈ s.data,
        ('a' ≤ c ∧ c ≤ 'z') ∨ ('A' ≤ c ∧ c ≤ 'Z') ∨ ('0' ≤ c ∧ c ≤ '9')) := by
    simp only [Bool.and_eq_true, beq_iff_eq, List.all_eq_true]
    constructor
    · rintro ⟨h1, h2⟩
      exact ⟨h1, fun c hc => (isAlnumC_iff c).mp (h2 c hc)⟩
    · rintro ⟨h1, h2⟩
      exact ⟨h1, fun c hc => (isAlnumC_iff c).mpr (h2 c hc)⟩
  by_cases h : (s.data.length == 22 && s.data.all isAlnumC) = true
  · refine ⟨iff_of_true ?_ (hiff.mp h), fun hc => absurd (hiff.mp h) hc, ?_⟩
    · simp only [validateSpotifyTrackId, if_pos h]
    · intro b hb
      simp only [validateSpotifyTrackId, if_pos h] at hb
      injection hb with hb'
      exact hb'.symm
  · have he : validateSpotifyTrackId s = .error (.invalidTrackId s) := by
      simp only [validateSpotifyTrackId, if_neg h]
    refine ⟨?_, fun _ => he, ?_⟩
    · rw [he]
      constructor
      · intro hc; cases hc
      · intro hc; exact absurd (hiff.mpr hc) h
    · intro b hb
      rw [he] at hb
      cases hb

/-- Witness for C1: the 22-character alphanumeric id of the repository's
README validates to `true`, and a shorter string is rejected. -/
theorem claim_C1_witness :
    validateSpotifyTrackId "308Ir17KlNdlrbVLHWhlLe" = .ok true ∧
    validateSpotifyTrackId "short" = .error (.invalidTrackId "short") :=
  ⟨(claim_C1 "308Ir17KlNdlrbVLHWhlLe").1.mpr (by decide),
   (claim_C1 "short").2.1 (by decide)⟩

/-- C2: `extractTrackIdFromUrl` fails with `InvalidSpotifyUrlError` whenever
the input lacks the `"spotify.com"` or `"/track/"` substring, and whenever no
non-empty alphanumeric run immediately follows `"/track/"` terminated by `?`
or end of input; and on every URL
`https://open.spotify.com/track/<id>?<anything>` with `<id>` a non-empty
alphanumeric segment it returns `<id>` exactly, with the query stripped. -/
theorem claim_C2 :
    (∀ url : String,
      ((¬∃ pre post, url.data = pre ++ spotifyLit ++ post) ∨
       (¬∃ pre post, url.data = pre ++ trackLit ++ post)) →
      extractTrackIdFromUrl url = .error (.invalidSpotifyUrl url))
    ∧ (∀ url : String,
      (¬∃ pre mid post, url.data = pre ++ trackLit ++ mid ++ post ∧ mid ≠ [] ∧
        (∀ c ∈ mid, isAlnumC c = true) ∧ (post = [] ∨ ∃ tl, post = '?' :: tl)) →
      extractTrackIdFromUrl url = .error (.invalidSpotifyUrl url))
    ∧ (∀ id rest : String, id ≠ "" → (∀ c ∈ id.data, isAlnumC c = true) →
      extractTrackIdFromUrl ("https://open.spotify.com/track/" ++ id ++ "?" ++ rest) =
        .ok id) := by
  refine ⟨?_, ?_, ?_⟩
  · intro url h
    have hc : containsSub spotifyLit url.data = false ∨
        containsSub trackLit url.data = false := by
      rcases h with h | h
      · exact Or.inl (by
          cases hb : containsSub spotifyLit url.data
          · rfl
          · exact absurd ((containsSub_iff _ _).mp hb) h)
      · exact Or.inr (by
          cases hb : containsSub trackLit url.data
          · rfl
          · exact absurd ((containsSub_iff _ _).mp hb) h)
    unfold extractTrackIdFromUrl
    rcases hc with hc | hc <;> simp [hc]
  · intro url h
    unfold extractTrackIdFromUrl
    split
    · rfl
    · cases hm : findTrackMatch url.data with
      | none => rfl
      | some cap =>
        exfalso
        rcases findTrackMatch_some_decomp hm with ⟨pre, post, hurl, hne, hal, hpost⟩
        exact h ⟨pre, cap, post, by simpa [List.append_assoc] using hurl, hne, hal, hpost⟩
  · intro id rest hne hal
    have hne' : id.data ≠ [] := fun hc => hne (string_data_eq_nil hc)
    have hdata' : ("https://open.spotify.com/track/" ++ id ++ "?" ++ rest).data =
        "https://open.spotify.com/track/".data ++ (id.data ++ '?' :: rest.data) := by
      simp only [string_data_append, List.append_assoc]
      rfl
    have hdata : ("https://open.spotify.com/track/" ++ id ++ "?" ++ rest).data =
        "https://open.spotify.com".data ++ (trackLit ++ (id.data ++ '?' :: rest.data)) := by
      rw [hdata',
        (by decide : ("https://open.spotify.com/track/" : String).data =
          "https://open.spotify.com".data ++ trackLit),
        List.append_assoc]
    have hsp : containsSub spotifyLit
        ("https://open.spotify.com/track/" ++ id ++ "?" ++ rest).data = true := by
      rw [hdata']
      exact containsSub_append_left _ _ _ (by decide)
    have htr : containsSub trackLit
        ("https://open.spotify.com/track/" ++ id ++ "?" ++ rest).data = true := by
      rw [hdata']
      exact containsSub_append_left _ _ _ (by decide)
    unfold extractTrackIdFromUrl
    rw [hsp, htr, hdata, findTrackMatch_pos_url id.data rest.data hne' hal]
    simp [isEmpty_eq_false_of_ne hne', string_mk_data]

/-- Witness for C2: a track URL with a query string maps to its id, and an
album URL is rejected. -/
theorem claim_C2_witness :
    extractTrackIdFromUrl
        ("https://open.spotify.com/track/" ++ "308Ir17KlNdlrbVLHWhlLe" ++ "?" ++ "si=x") =
      .ok "308Ir17KlNdlrbVLHWhlLe" ∧
    extractTrackIdFromUrl "https://open.spotify.com/album/X" =
      .error (.invalidSpotifyUrl "https://open.spotify.com/album/X") :=
  ⟨claim_C2.2.2 "308Ir17KlNdlrbVLHWhlLe" "si=x" (by decide) (by decide),
   claim_C2.2.1 "https://open.spotify.com/album/X" (by
    rintro ⟨pre, mid, post, hurl, -, -, -⟩
    have : containsSub trackLit "https://open.spotify.com/album/X".data = true :=
      (containsSub_iff _ _).mpr ⟨pre, mid ++ post, by simpa [List.append_assoc] using hurl⟩
    revert this
    decide)⟩

/-- C8: every successful result of `extractTrackIdFromUrl` is a non-empty
string consisting only of characters in `[a-zA-Z0-9]`. -/
theorem claim_C8 (url id : String) (h : extractTrackIdFromUrl url = .ok id) :
    id ≠ "" ∧ ∀ c ∈ id.data,
      ('a' ≤ c ∧ c ≤ 'z') ∨ ('A' ≤ c ∧ c ≤ 'Z') ∨ ('0' ≤ c ∧ c ≤ '9') := by
  unfold extractTrackIdFromUrl at h
  split at h
  · cases h
  · split at h
    · cases h
    · rename_i cap hm
      split at h
      · cases h
      · injection h with h'
        subst h'
        rcases findTrackMatch_some_decomp hm with ⟨-, -, -, hne, hal, -⟩
        exact ⟨string_mk_ne_empty hne, fun c hc => (isAlnumC_iff c).mp (hal c hc)⟩

/-- Witness for C8: the id extracted from a short-segment URL is non-empty
and alphanumeric. -/
theorem claim_C8_witness :
    ("ab1" : String) ≠ "" ∧ ∀ c ∈ ("ab1" : String).data,
      ('a' ≤ c ∧ c ≤ 'z') ∨ ('A' ≤ c ∧ c ≤ 'Z') ∨ ('0' ≤ c ∧ c ≤ '9') :=
  claim_C8 "https://open.spotify.com/track/ab1" "ab1" (by rfl)

/-! ### Lemmas about the `audioPreview` extraction regex -/

/-- `r` is a tail (suffix) of `l`. -/
def IsTail (r l : List Char) : Prop := ∃ s, l = s ++ r

theorem isTail_refl (l : List Char) : IsTail l l := ⟨[], rfl⟩

theorem isTail_trans {r m l : List Char} (h1 : IsTail m l) (h2 : IsTail r m) :
    IsTail r l := by
  rcases h1 with ⟨s1, rfl⟩
  rcases h2 with ⟨s2, rfl⟩
  exact ⟨s1 ++ s2, by simp⟩

theorem isTail_of_stripLit {p l r : List Char} (h : stripLit? p l = some r) :
    IsTail r l := ⟨p, (stripLit?_eq_some _ _ _).mp h⟩

theorem isTail_of_stripChar {c : Char} {l r : List Char} (h : stripChar? c l = some r) :
    IsTail r l := ⟨[c], (stripChar?_eq_some _ _ _).mp h⟩

theorem isTail_dropWhile (p : Char → Bool) (l : List Char) :
    IsTail (l.dropWhile p) l := ⟨l.takeWhile p, (List.takeWhile_append_dropWhile _ _).symm⟩

theorem matchAudioPreviewAt_some_decomp {l cap : List Char}
    (h : matchAudioPreviewAt l = some cap) :
    cap ≠ [] ∧ (∀ c ∈ cap, c ≠ '\"') ∧ ∃ pre post, l = pre ++ (cap ++ post) := by
  unfold matchAudioPreviewAt at h
  split at h
  · cases h
  · rename_i r1 h1
    split at h
    · cases h
    · rename_i r2 h2
      split at h
      · cases h
      · rename_i r3 h3
        split at h
        · cases h
        · rename_i r4 h4
          split at h
          · cases h
          · rename_i he
            split at h
            · cases h
            · rename_i q r5 hd
              split at h
              · cases h
              · injection h with h'
                subst h'
                have hne : r4.takeWhile (fun c => c ≠ '\"') ≠ [] := by
                  intro hc
                  exact he (by rw [hc]; rfl)
                have htail : IsTail r4 l :=
                  isTail_trans (isTail_of_stripLit h1)
                    (isTail_trans (isTail_dropWhile isJsSpace r1)
                      (isTail_trans (isTail_of_stripChar h2)
                        (isTail_trans (isTail_dropWhile isJsSpace r2)
                          (isTail_trans (isTail_of_stripLit h3)
                            (isTail_trans (isTail_dropWhile isJsSpace r3)
                              (isTail_of_stripChar h4))))))
                refine ⟨hne, ?_, ?_⟩
                · intro c hc
                  exact of_decide_eq_true (mem_takeWhile hc)
                · rcases htail with ⟨s, rfl⟩
                  exact ⟨s, r4.dropWhile (fun c => c ≠ '\"'), by
                    rw [List.takeWhile_append_dropWhile]⟩

theorem findAudioPreview_some_decomp {l cap : List Char}
    (h : findAudioPreview l = some cap) :
    cap ≠ [] ∧ (∀ c ∈ cap, c ≠ '\"') ∧ ∃ pre post, l = pre ++ (cap ++ post) := by
  induction l with
  | nil => cases h
  | cons a t ih =>
    rw [show findAudioPreview (a :: t) =
        (match matchAudioPreviewAt (a :: t) with
         | some cap => some cap
         | none => findAudioPreview t) from rfl] at h
    cases hm : matchAudioPreviewAt (a :: t) with
    | some cap' =>
      rw [hm] at h
      injection h with h'
      subst h'
      exact matchAudioPreviewAt_some_decomp hm
    | none =>
      rw [hm] at h
      simp only at h
      rcases ih h with ⟨h1, h2, pre, post, hl⟩
      exact ⟨h1, h2, a :: pre, post, by simp [hl]⟩

/-! ### Shape lemmas about error propagation -/

theorem extractTrackIdFromUrl_error_shape {url : String} {e : SpotifyError}
    (h : extractTrackIdFromUrl url = .error e) : e = .invalidSpotifyUrl url := by
  unfold extractTrackIdFromUrl at h
  split at h
  · injection h with h'
    exact h'.symm
  · split at h
    · injection h with h'
      exact h'.symm
    · split at h
      · injection h with h'
        exact h'.symm
      · cases h

theorem validateSpotifyTrackId_error_shape {s : String} {e : SpotifyError}
    (h : validateSpotifyTrackId s = .error e) : e = .invalidTrackId s := by
  unfold validateSpotifyTrackId at h
  split at h
  · cases h
  · injection h with h'
    exact h'.symm

theorem resolveTrack_error_shape {track : String} {e : SpotifyError}
    (h : resolveTrack track = .error e) :
    (containsSub spotifyLit track.data = true ∧ e = .invalidSpotifyUrl track) ∨
    (containsSub spotifyLit track.data = false ∧ e = .invalidTrackId track) := by
  unfold resolveTrack at h
  split at h
  · rename_i hc
    exact Or.inl ⟨hc, extractTrackIdFromUrl_error_shape h⟩
  · rename_i hc
    split at h
    · cases h
    · rename_i e' hv
      injection h with h'
      subst h'
      exact Or.inr ⟨Bool.not_eq_true _ ▸ Bool.of_not_eq_true hc,
        validateSpotifyTrackId_error_shape hv⟩

/-! ### Evaluation lemmas for `getPreview` -/

theorem getPreview_resolve_error (transport : String → Except String HttpResponse)
    (track : String) (throws : Bool) (e : SpotifyError)
    (hres : resolveTrack track = .error e) :
    getPreview transport track throws = (.error e, []) := by
  unfold getPreview
  rw [hres]

theorem getPreview_transport_error (transport : String → Except String HttpResponse)
    (track : String) (throws : Bool) (id msg : String)
    (hres : resolveTrack track = .ok id)
    (ht : transport (embedBase ++ id) = .error msg) :
    getPreview transport track throws =
      (.error (.apiError ("Failed to retrieve preview: " ++ msg) none),
       [embedBase ++ id]) := by
  unfold getPreview
  rw [hres]
  simp only []
  rw [ht]

theorem getPreview_requests_of_ok (transport : String → Except String HttpResponse)
    {track id : String} (throws : Bool) (hres : resolveTrack track = .ok id) :
    (getPreview transport track throws).2 = [embedBase ++ id] := by
  unfold getPreview
  rw [hres]
  simp only []
  repeat' split
  all_goals rfl

theorem getPreview_fetch_outcomes (transport : String → Except String HttpResponse)
    {track id : String} (throws : Bool) (hres : resolveTrack track = .ok id) :
    (∃ v, (getPreview transport track throws).1 = .ok v) ∨
    (∃ m c, (getPreview transport track throws).1 = .error (.apiError m c)) ∨
    (getPreview transport track throws).1 = .error (.noPreviewAvailable id) := by
  unfold getPreview
  rw [hres]
  simp only []
  split
  · exact Or.inr (Or.inl ⟨_, _, rfl⟩)
  · split
    · exact Or.inr (Or.inl ⟨_, _, rfl⟩)
    · split
      · cases throws
        · exact Or.inl ⟨none, rfl⟩
        · exact Or.inr (Or.inr rfl)
      · split
        · cases throws
          · exact Or.inl ⟨none, rfl⟩
          · exact Or.inr (Or.inr rfl)
        · exact Or.inl ⟨_, rfl⟩

theorem getPreview_extract_eval (transport : String → Except String HttpResponse)
    {track id : String} (throws : Bool) {resp : HttpResponse}
    (hres : resolveTrack track = .ok id)
    (ht : transport (embedBase ++ id) = .ok resp)
    (hok : resp.ok = true) :
    (findAudioPreview resp.body.data = none ∧
      getPreview transport track throws =
        (if throws then .error (.noPreviewAvailable id) else .ok none,
         [embedBase ++ id]))
    ∨ (∃ cap, findAudioPreview resp.body.data = some cap ∧
        (((String.mk cap == "" || !containsSub httpsLit cap) = true ∧
          getPreview transport track throws =
            (if throws then .error (.noPreviewAvailable id) else .ok none,
             [embedBase ++ id]))
         ∨ ((String.mk cap == "" || !containsSub httpsLit cap) = false ∧
          getPreview transport track throws =
            (.ok (some (String.mk cap)), [embedBase ++ id])))) := by
  cases hfind : findAudioPreview resp.body.data with
  | none =>
    refine Or.inl ⟨rfl, ?_⟩
    simp [getPreview, hres, ht, hok, hfind]
  | some cap =>
    by_cases hchk : (String.mk cap == "" || !containsSub httpsLit cap) = true
    · refine Or.inr ⟨cap, rfl, Or.inl ⟨hchk, ?_⟩⟩
      simp [getPreview, hres, ht, hok, hfind, hchk]
    · refine Or.inr ⟨cap, rfl, Or.inr ⟨Bool.of_not_eq_true hchk, ?_⟩⟩
      simp [getPreview, hres, ht, hok, hfind, Bool.of_not_eq_true hchk]

/-! ### Claims about `getPreview` -/

/-- C3: on a success-status response, a candidate extracted from the body is
the result only if non-empty and containing `https://`; every other outcome is
Absent: `null` when `options.throws` is not true, `NoPreviewAvailableError`
carrying the resolved track id when it is — never an `ApiError`. -/
theorem claim_C3 (transport : String → Except String HttpResponse)
    (track : String) (throws : Bool) (id : String) (resp : HttpResponse)
    (hres : resolveTrack track = .ok id)
    (ht : transport (embedBase ++ id) = .ok resp)
    (hok : resp.ok = true) :
    (∀ u : String, (getPreview transport track throws).1 = .ok (some u) →
      u ≠ "" ∧ containsSub httpsLit u.data = true)
    ∧ ((∀ cap, findAudioPreview resp.body.data = some cap →
        String.mk cap = "" ∨ containsSub httpsLit cap = false) →
      (getPreview transport track throws).1 =
        if throws then .error (.noPreviewAvailable id) else .ok none) := by
  rcases getPreview_extract_eval transport throws hres ht hok with
    ⟨hfind, hgp⟩ | ⟨cap, hfind, ⟨hchk, hgp⟩ | ⟨hchk, hgp⟩⟩
  · constructor
    · intro u hu
      rw [hgp] at hu
      cases throws <;> simp_all
    · intro _
      rw [hgp]
  · constructor
    · intro u hu
      rw [hgp] at hu
      cases throws <;> simp_all
    · intro _
      rw [hgp]
  · constructor
    · intro u hu
      rw [hgp] at hu
      injection hu with hu'
      injection hu' with hu''
      subst hu''
      rcases Bool.or_eq_false_iff.mp hchk with ⟨hne, hcs⟩
      refine ⟨?_, ?_⟩
      · intro hc
        rw [hc] at hne
        simp at hne
      · cases hb : containsSub httpsLit cap with
        | false =>
          rw [hb] at hcs
          simp at hcs
        | true => rfl
    · intro hcand
      rcases hcand cap hfind with h1 | h1
      · rw [h1] at hchk
        simp at hchk
      · rw [h1] at hchk
        simp at hchk

/-- C4: every response with HTTP status outside `[200, 300)` makes
`getPreview` throw `SpotifyApiError` carrying exactly that status code,
regardless of the response body. -/
theorem claim_C4 (transport : String → Except String HttpResponse)
    (track : String) (throws : Bool) (id : String) (resp : HttpResponse)
    (hres : resolveTrack track = .ok id)
    (ht : transport (embedBase ++ id) = .ok resp)
    (hstatus : ¬(200 ≤ resp.status ∧ resp.status < 300)) :
    (getPreview transport track throws).1 =
      .error (.apiError "Failed to fetch track preview data" (some resp.status)) := by
  have hok : resp.ok = false := by
    simp only [HttpResponse.ok]
    simp only [Bool.and_eq_false_iff, decide_eq_false_iff_not]
    by_cases h2 : 200 ≤ resp.status
    · exact Or.inr (fun h3 => hstatus ⟨h2, h3⟩)
    · exact Or.inl h2
  simp [getPreview, hres, ht, hok]

/-- C5: `getPreview` issues at most one transport request per call; when it
does, the request URL is exactly the fixed embed prefix concatenated with the
resolved track id; and when resolution fails the resolver's error is rethrown
and the transport is never invoked. -/
theorem claim_C5 (transport : String → Except String HttpResponse)
    (track : String) (throws : Bool) :
    (getPreview transport track throws).2.length ≤ 1
    ∧ (∀ e, resolveTrack track = .error e →
        getPreview transport track throws = (.error e, []))
    ∧ (∀ id, resolveTrack track = .ok id →
        (getPreview transport track throws).2 = [embedBase ++ id]) := by
  cases hres : resolveTrack track with
  | error e =>
    rw [getPreview_resolve_error transport track throws e hres]
    refine ⟨by simp, ?_, ?_⟩
    · intro e' he'
      injection he' with h'
      subst h'
      rfl
    · intro id hid
      cases hid
  | ok id =>
    have h2 := getPreview_requests_of_ok transport throws hres
    refine ⟨by rw [h2]; simp, ?_, ?_⟩
    · intro e' he'
      cases he'
    · intro id' hid
      injection hid with h'
      subst h'
      exact h2

/-- C6: a transport exception in the fetch-and-extract phase is wrapped as
`SpotifyApiError` with no status code, while the typed preview errors of that
phase (non-success status, no preview) propagate unchanged. -/
theorem claim_C6 (transport : String → Except String HttpResponse)
    (track : String) (throws : Bool) (id : String)
    (hres : resolveTrack track = .ok id) :
    (∀ msg, transport (embedBase ++ id) = .error msg →
      (getPreview transport track throws).1 =
        .error (.apiError ("Failed to retrieve preview: " ++ msg) none))
    ∧ (∀ resp e, transport (embedBase ++ id) = .ok resp →
        (getPreview transport track throws).1 = .error e →
        e = .apiError "Failed to fetch track preview data" (some resp.status) ∨
        e = .noPreviewAvailable id) := by
  constructor
  · intro msg ht
    rw [getPreview_transport_error transport track throws id msg hres ht]
  · intro resp e ht he
    cases hok : resp.ok with
    | false =>
      have : (getPreview transport track throws).1 =
          .error (.apiError "Failed to fetch track preview data" (some resp.status)) := by
        simp [getPreview, hres, ht, hok]
      rw [this] at he
      injection he with h'
      exact Or.inl h'.symm
    | true =>
      rcases getPreview_extract_eval transport throws hres ht hok with
        ⟨-, hgp⟩ | ⟨cap, -, ⟨-, hgp⟩ | ⟨-, hgp⟩⟩
      · rw [hgp] at he
        cases throws with
        | false => cases he
        | true =>
          simp only [if_true] at he
          injection he with h'
          exact Or.inr h'.symm
      · rw [hgp] at he
        cases throws with
        | false => cases he
        | true =>
          simp only [if_true] at he
          injection he with h'
          exact Or.inr h'.symm
      · rw [hgp] at he
        cases he

/-- C7: when the input contains `"spotify.com"` and a segment is successfully
extracted, the pipeline uses it as the track id as-is — the request URL is the
embed prefix plus the extracted segment, with no length re-validation — and
`getPreview` never throws `InvalidTrackIdError` on such input. -/
theorem claim_C7 (transport : String → Except String HttpResponse)
    (track : String) (throws : Bool)
    (hurl : containsSub spotifyLit track.data = true) :
    (∀ s, (getPreview transport track throws).1 ≠ .error (.invalidTrackId s))
    ∧ (∀ id, extractTrackIdFromUrl track = .ok id →
        (getPreview transport track throws).2 = [embedBase ++ id]) := by
  have hres_eq : resolveTrack track = extractTrackIdFromUrl track := by
    unfold resolveTrack
    rw [if_pos hurl]
  constructor
  · intro s hc
    cases hres : resolveTrack track with
    | error e =>
      rw [getPreview_resolve_error transport track throws e hres] at hc
      rcases resolveTrack_error_shape hres with ⟨-, rfl⟩ | ⟨hcf, -⟩
      · injection hc with h'
        cases h'
      · rw [hurl] at hcf
        cases hcf
    | ok id =>
      rcases getPreview_fetch_outcomes transport throws hres with
        ⟨v, hv⟩ | ⟨m, c, hv⟩ | hv
      · rw [hv] at hc
        cases hc
      · rw [hv] at hc
        injection hc with h'
        cases h'
      · rw [hv] at hc
        injection hc with h'
        cases h'
  · intro id hid
    exact getPreview_requests_of_ok transport throws (hres_eq ▸ hid)

/-- C9: the two identifier branches are mutually exclusive by the
`"spotify.com"` substring test: inputs without it never yield
`InvalidSpotifyUrlError`, inputs with it never yield `InvalidTrackIdError`. -/
theorem claim_C9 (transport : String → Except String HttpResponse)
    (track : String) (throws : Bool) :
    (containsSub spotifyLit track.data = false →
      ∀ u, (getPreview transport track throws).1 ≠ .error (.invalidSpotifyUrl u))
    ∧ (containsSub spotifyLit track.data = true →
      ∀ s, (getPreview transport track throws).1 ≠ .error (.invalidTrackId s)) := by
  constructor
  · intro hcf u hc
    cases hres : resolveTrack track with
    | error e =>
      rw [getPreview_resolve_error transport track throws e hres] at hc
      rcases resolveTrack_error_shape hres with ⟨hct, -⟩ | ⟨-, rfl⟩
      · rw [hcf] at hct
        cases hct
      · injection hc with h'
        cases h'
    | ok id =>
      rcases getPreview_fetch_outcomes transport throws hres with
        ⟨v, hv⟩ | ⟨m, c, hv⟩ | hv
      · rw [hv] at hc
        cases hc
      · rw [hv] at hc
        injection hc with h'
        cases h'
      · rw [hv] at hc
        injection hc with h'
        cases h'
  · intro hct s hc
    cases hres : resolveTrack track with
    | error e =>
      rw [getPreview_resolve_error transport track throws e hres] at hc
      rcases resolveTrack_error_shape hres with ⟨-, rfl⟩ | ⟨hcf, -⟩
      · injection hc with h'
        cases h'
      · rw [hct] at hcf
        cases hcf
    | ok id =>
      rcases getPreview_fetch_outcomes transport throws hres with
        ⟨v, hv⟩ | ⟨m, c, hv⟩ | hv
      · rw [hv] at hc
        cases hc
      · rw [hv] at hc
        injection hc with h'
        cases h'
      · rw [hv] at hc
        injection hc with h'
        cases h'

/-- C10: every non-null string returned by `getPreview` is a non-empty
contiguous substring of the response body, contains `https://`, and contains
no double-quote character. -/
theorem claim_C10 (transport : String → Except String HttpResponse)
    (track : String) (throws : Bool) (id u : String) (resp : HttpResponse)
    (hres : resolveTrack track = .ok id)
    (ht : transport (embedBase ++ id) = .ok resp)
    (hfst : (getPreview transport track throws).1 = .ok (some u)) :
    u ≠ "" ∧ containsSub httpsLit u.data = true ∧ '\"' ∉ u.data ∧
      ∃ pre post, resp.body.data = pre ++ (u.data ++ post) := by
  cases hok : resp.ok with
  | false =>
    have hbad : (getPreview transport track throws).1 =
        .error (.apiError "Failed to fetch track preview data" (some resp.status)) := by
      simp [getPreview, hres, ht, hok]
    rw [hbad] at hfst
    cases hfst
  | true =>
    rcases getPreview_extract_eval transport throws hres ht hok with
      ⟨hfind, hgp⟩ | ⟨cap, hfind, ⟨hchk, hgp⟩ | ⟨hchk, hgp⟩⟩
    · rw [hgp] at hfst
      cases throws <;> simp_all
    · rw [hgp] at hfst
      cases throws <;> simp_all
    · rw [hgp] at hfst
      injection hfst with h'
      injection h' with h''
      subst h''
      rcases findAudioPreview_some_decomp hfind with ⟨hne, hq, pre, post, hbody⟩
      refine ⟨string_mk_ne_empty hne, ?_, ?_, pre, post, hbody⟩
      · cases hb : containsSub httpsLit cap with
        | false =>
          rw [hb] at hchk
          simp at hchk
        | true => rfl
      · intro hmem
        exact (hq _ hmem) rfl

/-! ### Concrete transports and witnesses -/

/-- A body with no `audioPreview` fragment (the spec's mocked response). -/
def noPreviewBody : String := "\x7b\"someOtherData\": \"value\"\x7d"

/-- A body carrying an `audioPreview` fragment. -/
def previewBody : String :=
  "x\"audioPreview\": \x7b\"url\": \"https://p.scdn.co/mp3-preview/abc\"\x7dy"

/-- Transport returning status 200 and a body without a preview. -/
def mockTransportNoPreview : String → Except String HttpResponse :=
  fun _ => .ok (HttpResponse.mk 200 noPreviewBody)

/-- Transport returning status 200 and a body with a preview. -/
def mockTransportPreview : String → Except String HttpResponse :=
  fun _ => .ok (HttpResponse.mk 200 previewBody)

/-- Transport returning status 500. -/
def mockTransport500 : String → Except String HttpResponse :=
  fun _ => .ok (HttpResponse.mk 500 "")

/-- Transport that throws. -/
def mockTransportFail : String → Except String HttpResponse :=
  fun _ => .error "network down"

/-- Witness for C3: a 200 response whose body has no preview fragment resolves
to `NoPreviewAvailableError` carrying the track id under `throws := true`. -/
theorem claim_C3_witness :
    (getPreview mockTransportNoPreview "1234567890123456789012" true).1 =
      .error (.noPreviewAvailable "1234567890123456789012") :=
  (claim_C3 mockTransportNoPreview "1234567890123456789012" true
    "1234567890123456789012" (HttpResponse.mk 200 noPreviewBody) rfl rfl rfl).2
    (fun cap hcap => by
      have hn : findAudioPreview (HttpResponse.mk 200 noPreviewBody).body.data = none := by
        rfl
      rw [hn] at hcap
      cases hcap)

/-- Witness for C4: a 500 response yields `SpotifyApiError` with status 500. -/
theorem claim_C4_witness :
    (getPreview mockTransport500 "1234567890123456789012" false).1 =
      .error (.apiError "Failed to fetch track preview data" (some 500)) :=
  claim_C4 mockTransport500 "1234567890123456789012" false "1234567890123456789012"
    (HttpResponse.mk 500 "") rfl rfl (by decide)

/-- Witness for C5: `getPreview "invalid-id"` rejects with the resolver's
`InvalidTrackIdError` and the transport is never invoked. -/
theorem claim_C5_witness :
    getPreview mockTransportFail "invalid-id" false =
      (.error (.invalidTrackId "invalid-id"), []) :=
  (claim_C5 mockTransportFail "invalid-id" false).2.1 (.invalidTrackId "invalid-id") rfl

/-- Witness for C6: a transport exception is wrapped as `SpotifyApiError`
with no status code. -/
theorem claim_C6_witness :
    (getPreview mockTransportFail "1234567890123456789012" false).1 =
      .error (.apiError ("Failed to retrieve preview: " ++ "network down") none) :=
  (claim_C6 mockTransportFail "1234567890123456789012" false
    "1234567890123456789012" rfl).1 "network down" rfl

/-- Witness for C7: a URL with a 3-character segment is fetched as-is. -/
theorem claim_C7_witness :
    (getPreview mockTransportNoPreview "https://open.spotify.com/track/abc" false).2 =
      [embedBase ++ "abc"] :=
  (claim_C7 mockTransportNoPreview "https://open.spotify.com/track/abc" false
    (by decide)).2 "abc" rfl

/-- Witness for C9: a plain id input never yields `InvalidSpotifyUrlError`. -/
theorem claim_C9_witness :
    (getPreview mockTransport500 "plainid" false).1 ≠
      .error (.invalidSpotifyUrl "plainid") :=
  (claim_C9 mockTransport500 "plainid" false).1 (by decide) "plainid"

/-- Witness for C10: the returned preview URL is a quote-free substring of
the body containing `https://`. -/
theorem claim_C10_witness :
    ("https://p.scdn.co/mp3-preview/abc" : String) ≠ "" ∧
    containsSub httpsLit ("https://p.scdn.co/mp3-preview/abc" : String).data = true ∧
    '\"' ∉ ("https://p.scdn.co/mp3-preview/abc" : String).data ∧
    ∃ pre post, previewBody.data =
      pre ++ (("https://p.scdn.co/mp3-preview/abc" : String).data ++ post) :=
  claim_C10 mockTransportPreview "1234567890123456789012" false
    "1234567890123456789012" "https://p.scdn.co/mp3-preview/abc"
    (HttpResponse.mk 200 previewBody) rfl rfl rfl

end SpotifyPreviews
